import Mathlib

/-!
Verification of the feature-extraction pipeline of the `pleased` repository
(plant bioelectric signal classification).

The Python sources (`transform.py`, `learn.py`, `plant.py`, `process.py`) are
Python 2: `/` on integers is floor division, and division by zero raises
`ZeroDivisionError`.  The embedding below models numeric data with exact
arithmetic (`ℚ` where the development must be executable, `ℝ` where the code
takes square roots and cosines), Python lists as `List`, Python integer
floor division by a positive divisor as Lean's `/` on `ℤ` (Euclidean division
coincides with floor division whenever the divisor is positive; every divisor
in the modelled code is positive), and code that can raise an exception as an
`Option`-valued function.
-/

namespace Pleased

/-! ## Statistics kernel (`transform.py`, lines 273-308) -/

section StatsKernel

variable {α : Type*} [LinearOrderedField α]

/-- From `transform.py`: `mean(x) = sum(x) / len(x)`. -/
def mean (x : List α) : α := x.sum / x.length

/-- From `transform.py`: `differential(x) = [x2 - x1 for (x1, x2) in zip(x[:-1], x[1:])]`.
`zip(x[:-1], x[1:])` pairs each element with its successor, which is
`List.zipWith _ x x.tail`. -/
def differential (x : List α) : List α := List.zipWith (fun x1 x2 => x2 - x1) x x.tail

/-- From `transform.py`: `moment(x, n)`; `m = mean(x)` then
`sum([(xx-m)**n for xx in x]) / len(x)`. -/
def moment (x : List α) (n : ℕ) : α := ((x.map (fun xx => (xx - mean x) ^ n)).sum) / x.length

/-- From `transform.py`: `var(x) = moment(x, 2)`. -/
def var (x : List α) : α := moment x 2

/-- From `transform.py`: `skewness(x) = moment(x, 3) / (var(x) ** (3/2))`.
The exponent `3/2` is Python 2 *integer* division, which evaluates to `1`;
Lean's `ℕ` division in `(3 / 2 : ℕ)` floors the same way. -/
def skewness (x : List α) : α := moment x 3 / var x ^ (3 / 2 : ℕ)

/-- From `transform.py`: `kurtosis(x) = moment(x, 4) / (var(x) ** 2) - 3`. -/
def kurtosis (x : List α) : α := moment x 4 / var x ^ 2 - 3

end StatsKernel

/-- Modelled from the spec: `skewness = moment(x,3) / var^1.5`.  For the
nonnegative quantity `var x`, `var x ** 1.5 = (sqrt (var x))^3`.  This is the
comparator that the spec's words describe, to be held against the source
function `skewness` above. -/
noncomputable def specSkewness (x : List ℝ) : ℝ := moment x 3 / Real.sqrt (var x) ^ 3

/-! ## Checked (exception-aware) statistics kernel over `ℚ`.

Python 2 raises `ZeroDivisionError` when the divisor of `/` is zero (for both
`int` and `float` operands).  `pyDiv` returns `none` exactly in that case, and
the `E`-suffixed functions thread the possible error through each statistic in
the evaluation order of the source expressions. -/

/-- Python division: `none` models `ZeroDivisionError`. -/
def pyDiv (a b : ℚ) : Option ℚ := if b = 0 then none else some (a / b)

/-- Checked `mean(x) = sum(x) / len(x)`; raises on an empty list. -/
def meanE (x : List ℚ) : Option ℚ := pyDiv x.sum x.length

/-- Checked `moment(x, n)`. -/
def momentE (x : List ℚ) (n : ℕ) : Option ℚ :=
  (meanE x).bind (fun m => pyDiv ((x.map (fun xx => (xx - m) ^ n)).sum) x.length)

/-- Checked `var(x) = moment(x, 2)`. -/
def varE (x : List ℚ) : Option ℚ := momentE x 2

/-- Checked `skewness(x) = moment(x, 3) / (var(x) ** (3/2))`, with the Python 2
integer-division exponent `3/2 = 1`. -/
def skewnessE (x : List ℚ) : Option ℚ :=
  (momentE x 3).bind (fun m3 => (varE x).bind (fun v => pyDiv m3 (v ^ (3 / 2 : ℕ))))

/-- Checked `kurtosis(x) = moment(x, 4) / (var(x) ** 2) - 3`. -/
def kurtosisE (x : List ℚ) : Option ℚ :=
  (momentE x 4).bind (fun m4 => (varE x).bind (fun v => (pyDiv m4 (v ^ 2)).map (fun q => q - 3)))

/-! ## Python slice model

Python `x[a:b]` (step 1) resolves each bound by adding `len(x)` to a negative
index and clamping into `[0, len(x)]`, then takes the elements with resolved
index in `[start, stop)`. -/

section Slicing

variable {β : Type*}

/-- Resolved Python slice bound: negative indices count from the end, and the
result is clamped into `[0, n]` (`Int.toNat` clamps below, `min` above). -/
def sliceBound (n : ℕ) (i : ℤ) : ℕ := (if i < 0 then i + n else i).toNat.min n

/-- Python `x[a:b]`. -/
def pySlice (x : List β) (a b : ℤ) : List β :=
  (x.take (sliceBound x.length b)).drop (sliceBound x.length a)

/-- Python `x[a:]`. -/
def pySliceFrom (x : List β) (a : ℤ) : List β := x.drop (sliceBound x.length a)

/-- From `transform.py`, `PreStimulusTransform.extractor`: `x[0:-window_offset]`.
`datapoint.window_offset` is an ambient module-level constant (the `datapoint`
module is not part of the transform sources); it is taken here as the
parameter `windowOffset`, which the claims quantify over. -/
def preStimulusExtractor (windowOffset : ℕ) (x : List β) : List β :=
  pySlice x 0 (-(windowOffset : ℤ))

/-- From `transform.py`, `PostStimulusTransform(offset).extractor`:
`x[self.offset - datapoint.window_offset:]`. -/
def postStimulusExtractor (offset : ℤ) (windowOffset : ℕ) (x : List β) : List β :=
  pySliceFrom x (offset - windowOffset)

end Slicing

/-! ## Moving average and noise (`transform.py`, lines 209-248) -/

/-- Loop body of `MovingAvgTransform.extractor`.  The Python loop
`for i, xx in enumerate(x)` appends `accum / n`, then tries to read
`x[i + n]` — on `IndexError` it breaks out (keeping the value just appended),
otherwise it adds `x[i + n]` and subtracts `x[i]` from the accumulator.
Walking the suffix of `x` starting at `i`, the current element is `xx` and
`x[i + n]` is element `n` of the suffix. -/
def movingAvgGo (n : ℕ) (accum : ℚ) : List ℚ → List ℚ
  | [] => []
  | xx :: rest =>
    match (xx :: rest)[n]? with
    | none => [accum / n]
    | some xn => accum / n :: movingAvgGo n (accum + xn - xx) rest

/-- From `transform.py`, `MovingAvgTransform(n).extractor`: the accumulator is
initialised with `sum(x[:self.n])`. -/
def movingAvg (n : ℕ) (x : List ℚ) : List ℚ := movingAvgGo n ((x.take n).sum) x

/-- Modelled from the spec: the naive sliding-window mean — value `i` is the
mean of `x[i..i+n-1]` — the comparator for the refinement claim about the
accumulator implementation. -/
def movingAvgDirect (n : ℕ) (x : List ℚ) : List ℚ :=
  (List.range (x.length - n + 1)).map (fun i => ((x.drop i).take n).sum / n)

/-- From `transform.py`, `NoiseTransform(n).extractor`:
`smoothed = MovingAvgTransform(n).extractor(x)` and then
`[xx - ss for xx, ss in zip(x[self.n/2:-self.n/2], smoothed)]`.
In Python, unary minus binds tighter than `/`, so the stop bound is
`(-n)/2` (floor); both divisions are Python 2 floor divisions with the
positive divisor `2`, hence `ℤ` division below. -/
def noiseExtractor (n : ℕ) (x : List ℚ) : List ℚ :=
  List.zipWith (fun xx ss => xx - ss) (pySlice x ((n : ℤ) / 2) ((-(n : ℤ)) / 2)) (movingAvg n x)

/-! ## Feature ensemble (`transform.py`, lines 251-270) -/

/-- From `transform.py`, `FeatureEnsembleTransform.extractor`.  The Python
`** 0.5` on the nonnegative variances is the real square root
(`var_nonneg` below proves nonnegativity). -/
noncomputable def featureEnsemble (x : List ℝ) : List ℝ :=
  let avg := mean x
  let diff1 := mean ((differential x).map abs)
  let diff2 := mean ((differential (differential x)).map abs)
  let vari := var x
  let vardiff1 := var (differential x)
  let vardiff2 := var (differential (differential x))
  let hjorth_mob := Real.sqrt vardiff1 / Real.sqrt vari
  let hjorth_com := (Real.sqrt vardiff2 / Real.sqrt vardiff1) / hjorth_mob
  let skew := skewness x
  let kurt := kurtosis x
  [avg, diff1, diff2, vari, vardiff1, vardiff2, hjorth_mob, hjorth_com, skew, kurt]

/-! ## Window transform (`transform.py`, lines 79-98)

`WindowTransform(f, N, hanning).extractor` computes (Python 2 integer
divisions) `window_size = 2*len(x)/(N+1)` and `step = window_size/2`, then for
`i in range(0, len(x)-window_size+1, step)` takes the numpy slice *view*
`window = x[i:i+window_size]`; with `hanning` set, `window *= np.hanning(len(window))`
multiplies the view in place, which writes the tapered values back into the
buffer `x` (subsequent overlapping windows observe them); `f(window)` is
appended, and the pieces are concatenated. -/

/-- `np.hanning(M)`: `[0.5 - 0.5*cos(2*pi*n/(M-1)) for n in range(M)]`, with
`np.hanning(1) = [1.0]` and `np.hanning(0) = []`. -/
noncomputable def hanningList (M : ℕ) : List ℝ :=
  if M = 1 then [1]
  else (List.range M).map
    (fun n : ℕ => 1 / 2 - 1 / 2 * Real.cos (2 * Real.pi * (n : ℝ) / ((M : ℝ) - 1)))

/-- `window *= np.hanning(len(window))`: elementwise product. -/
noncomputable def hannTaper (win : List ℝ) : List ℝ :=
  List.zipWith (fun a b => a * b) win (hanningList win.length)

/-- The optional taper, as the claim phrases it. -/
noncomputable def applyHann (hanning : Bool) (win : List ℝ) : List ℝ :=
  if hanning then hannTaper win else win

/-- The buffer after the in-place multiply on the view `x[i:i+w]`: positions
`i ≤ j < i+w` now hold the tapered segment. -/
def writeSeg {β : Type*} (x : List β) (i w : ℕ) (seg : List β) : List β :=
  x.take i ++ seg ++ x.drop (i + w)

/-- Python `range(0, stop, step)` with integer `stop` and positive `step`:
`⌈stop/step⌉` (clamped at 0) indices `0, step, 2*step, …`. -/
def pyRangeZ (stop : ℤ) (step : ℕ) : List ℤ :=
  (List.range (((stop + step - 1) / step).toNat)).map (fun k : ℕ => (k : ℤ) * step)

/-- The window loop: emits each window's contents in order (`f` is mapped
over them by the extractor below), threading the buffer through the in-place
taper writes. -/
noncomputable def windowSlices (hanning : Bool) (w : ℕ) : List ℤ → List ℝ → List (List ℝ)
  | [], _ => []
  | i :: rest, x =>
    let win := pySlice x i (i + w)
    if hanning then
      let winT := hannTaper win
      winT :: windowSlices hanning w rest (writeSeg x i.toNat w winT)
    else
      win :: windowSlices hanning w rest x

/-- The loop's index list `range(0, len(x)-window_size+1, step)`; the range is
evaluated once, from the original length. -/
def windowIndices (len N : ℕ) : List ℤ :=
  pyRangeZ ((len : ℤ) - (2 * len / (N + 1) : ℕ) + 1) (2 * len / (N + 1) / 2)

/-- `WindowTransform(f, N, hanning).extractor(x)`: apply `f` to each window
and concatenate. -/
noncomputable def windowTransformExtractor (f : List ℝ → List ℝ) (N : ℕ) (hanning : Bool)
    (x : List ℝ) : List ℝ :=
  ((windowSlices hanning (2 * x.length / (N + 1)) (windowIndices x.length N) x).map f).join

/-! ## Split transform (`transform.py`, lines 48-57) -/

/-- From `transform.py`: `SplitTransform.__init__(self, steps=None, divs=None)`
only stores its two parameters.  There is no validation code in the
constructor, so construction cannot fail. -/
structure SplitTransform where
  steps : Option ℕ
  divs : Option ℕ
deriving DecidableEq

/-- The constructor: `self.steps = steps; self.divs = divs`. -/
def splitTransformInit (steps divs : Option ℕ) : SplitTransform :=
  { steps := steps, divs := divs }

/-- The `len(x) / self.divs` fallback of `self.steps or len(x) / self.divs`:
`none` models the `TypeError` of dividing by `None` as well as the
`ZeroDivisionError` of dividing by `0`. -/
def splitDivsSteps (divs : Option ℕ) (len : ℕ) : Option ℕ :=
  match divs with
  | none => none
  | some d => if d = 0 then none else some (len / d)

/-- `steps = self.steps or len(x) / self.divs`: Python `or` falls through to
the right operand when `self.steps` is `None` — or `0`, which is falsy. -/
def splitResolveSteps (t : SplitTransform) (len : ℕ) : Option ℕ :=
  match t.steps with
  | none => splitDivsSteps t.divs len
  | some s => if s = 0 then splitDivsSteps t.divs len else some s

/-- Python `range(0, stop, step)` for natural `stop` and positive `step`:
`⌈stop/step⌉` indices `0, step, 2*step, …`. -/
def pyRangeN (stop step : ℕ) : List ℕ :=
  (List.range ((stop + step - 1) / step)).map (fun k => k * step)

/-- From `transform.py`, `SplitTransform.extractor`:
`np.array([x[i:i+steps] for i in range(0, len(x), steps)]).T`.
A resolved step of `0` would make `range` raise `ValueError` (`none`); the
trailing `.T` is the matrix transpose of the list of chunks (the chunks have
equal length exactly when `steps` divides `len(x)` evenly, the documented
usage). -/
def splitExtractor (t : SplitTransform) (x : List ℚ) : Option (List (List ℚ)) :=
  match splitResolveSteps t x.length with
  | none => none
  | some s =>
    if s = 0 then none
    else some (List.transpose ((pyRangeN x.length s).map (fun i => (x.drop i).take s)))

/-! ## Stimulus-type lookup (`plant.py` lines 133-166, `process.py` lines 79-96) -/

/-- Initial-segment test on character lists (`a` begins `b`). -/
def segStart : List Char → List Char → Bool
  | [], _ => true
  | _ :: _, [] => false
  | a :: as, b :: bs => a == b && segStart as bs

/-- Python substring containment `a in s` for strings, as character lists. -/
def segIn (a : List Char) : List Char → Bool
  | [] => segStart a []
  | s@(_ :: tl) => segStart a s || segIn a tl

/-- Python `re.sub(r'_?\d+$', '', s)`: remove the maximal trailing run of
digits together with one optional underscore right before it. -/
def stripTrailingId (s : List Char) : List Char :=
  let r := s.reverse
  let ds := r.takeWhile Char.isDigit
  if ds.isEmpty then s
  else
    match r.drop ds.length with
    | '_' :: tl => tl.reverse
    | other => other.reverse

/-- Python `s.lower()`. -/
def lowerStr (s : List Char) : List Char := s.map Char.toLower

/-- The shared name formatting of both loaders: strip `_?\d+$`, then
lowercase. -/
def formatType (s : List Char) : List Char := lowerStr (stripTrailingId s)

/-- The `stim_types` table, identical in `plant.py` and `process.py`, in
textual order.  Python 2 dict iteration order is implementation-defined; for
the `plant.py` lookup below the outcome is independent of the stimulus name
under *any* iteration order, because only keys whose own text contains one of
their aliases can ever match. -/
def stimTypes : List (List Char × List (List Char)) :=
  [("water".toList, ["acqua piante".toList]),
   ("H2SO".toList, ["h2so".toList]),
   ("ozone".toList, ["ozone".toList, "ozono".toList, "o3".toList]),
   ("NaCL".toList, ["nacl".toList]),
   ("light-on".toList, ["light-on".toList]),
   ("light-off".toList, ["light-off".toList])]

/-- From `plant.py`, `format_raw`: the formatted name is computed into `t`,
but the loop `for t, aliases in stim_types.iteritems()` rebinds `t` to the
dict key, so `if alias in t` tests each alias against the *type key* — the
stimulus name is never consulted.  Case-sensitive, exactly as in the source
(`'h2so' in 'H2SO'` is false). -/
def plantLookup (stimType : List Char) : Option (List Char) :=
  let _t := formatType stimType
  (stimTypes.find? (fun p => p.2.any (fun al => segIn al p.1))).map Prod.fst

/-- From `process.py`, `load_mat`: the formatted stimulus name is tested for
containment of each alias (`if alias in name`); the first matching type key
wins, and a stimulus matching no alias yields `none` (it is dropped). -/
def processLookup (stimName : List Char) : Option (List Char) :=
  let name := formatType stimName
  (stimTypes.find? (fun p => p.2.any (fun al => segIn al name))).map Prod.fst

/-! ## Theorems -/

/-- C7: the split transform's constructor performs no validation — it
succeeds for every combination of `steps`/`divs` (here: with both given) —
and with neither given the failure happens at extractor time, not at
construction time; with both given, no error is ever raised (`steps` wins). -/
theorem split_C7_counterexample :
    splitTransformInit (some 2) (some 3) = { steps := some 2, divs := some 3 } ∧
    splitExtractor (splitTransformInit none none) [1, 2] = none ∧
    splitExtractor (splitTransformInit (some 1) (some 1)) [1, 2] = some [[1, 2]] := by
  refine ⟨rfl, rfl, ?_⟩
  decide

/-- C7 amended: construction always succeeds and merely stores the
parameters; with neither `steps` nor `divs` given, every extractor call fails
(division by the missing divisor); with both given, `steps` silently takes
precedence and the `divs` value is ignored. -/
theorem split_C7_amended (s : ℕ) (divs : Option ℕ) (x : List ℚ) (hs : s ≠ 0) :
    splitTransformInit (some s) divs = { steps := some s, divs := divs } ∧
    splitExtractor (splitTransformInit none none) x = none ∧
    splitExtractor (splitTransformInit (some s) divs) x =
      splitExtractor (splitTransformInit (some s) none) x := by
  refine ⟨rfl, rfl, ?_⟩
  simp [splitExtractor, splitResolveSteps, splitTransformInit, hs]

/-- Witness for the amended C7 at `s = 2`, `divs = some 3`, `x = [1,2,3,4]`. -/
theorem split_C7_amended_witness :
    (2 : ℕ) ≠ 0 ∧
    (splitTransformInit (some 2) (some 3) = { steps := some 2, divs := some 3 } ∧
      splitExtractor (splitTransformInit none none) ([1, 2, 3, 4] : List ℚ) = none ∧
      splitExtractor (splitTransformInit (some 2) (some 3)) ([1, 2, 3, 4] : List ℚ) =
        splitExtractor (splitTransformInit (some 2) none) ([1, 2, 3, 4] : List ℚ)) :=
  ⟨by decide, split_C7_amended 2 (some 3) [1, 2, 3, 4] (by decide)⟩

/-- C9: the `plant.py` lookup assigns the type `'ozone'` to a stimulus named
`'NaCL_1'` — and to a stimulus with any unrecognizable name — because the
shadowed loop variable makes it match aliases against the type keys instead
of the name; the `process.py` lookup implements the claimed rule: `'NaCL_1'`
is assigned `'NaCL'` and a non-matching name is dropped. -/
theorem stim_lookup_C9 :
    plantLookup ("NaCL_1".toList) = some ("ozone".toList) ∧
    plantLookup ("xyz".toList) = some ("ozone".toList) ∧
    processLookup ("NaCL_1".toList) = some ("NaCL".toList) ∧
    processLookup ("xyz".toList) = none := by
  refine ⟨?_, ?_, ?_, ?_⟩ <;> decide

/-- Helper: the accumulator loop agrees with the direct windowed mean. -/
theorem movingAvgGo_spec :
    ∀ (y : List ℚ) (n : ℕ), 1 ≤ n → n ≤ y.length →
      movingAvgGo n ((y.take n).sum) y =
        (List.range (y.length - n + 1)).map (fun i => ((y.drop i).take n).sum / n)
  | [], n, h1, h2 => by
    simp at h2
    omega
  | xx :: rest, n, h1, h2 => by
    obtain ⟨m, rfl⟩ : ∃ m, n = m + 1 := ⟨n - 1, by omega⟩
    rcases Nat.lt_or_ge m rest.length with hm | hm
    · -- the read of `x[i + n]` succeeds: continue with the updated accumulator
      have hget : (xx :: rest)[m + 1]? = some (rest.get ⟨m, hm⟩) := by
        simp [List.getElem?_eq_getElem, hm]
      have haccum : (xx :: rest).take (m + 1) = xx :: rest.take m := by
        simp [List.take_succ_cons]
      have haccum2 :
          ((xx :: rest).take (m + 1)).sum + rest.get ⟨m, hm⟩ - xx = (rest.take (m + 1)).sum := by
        rw [haccum, List.sum_cons, List.sum_take_succ rest m hm]
        simp only [List.get_eq_getElem]
        ring
      rw [movingAvgGo, hget]
      dsimp only
      rw [haccum2, movingAvgGo_spec rest (m + 1) h1 (by omega)]
      have hlen : (xx :: rest).length - (m + 1) + 1 = (rest.length - (m + 1) + 1) + 1 := by
        simp
        omega
      rw [hlen, List.range_succ_eq_map (rest.length - (m + 1) + 1), List.map_cons, List.map_map]
      congr 1
    · -- `x[i + n]` is out of range: the loop breaks after one element
      have hget : (xx :: rest)[m + 1]? = none := by
        apply List.getElem?_eq_none
        simp
        omega
      rw [movingAvgGo, hget]
      have hlen : (xx :: rest).length - (m + 1) + 1 = 1 := by
        simp
        omega
      rw [hlen]
      simp [List.range_succ, List.take_succ_cons]

/-- C4: the accumulator-based `MovingAvgTransform(n)` computes exactly the
naive sliding-window means `sum(x[i..i+n-1]) / n` for
`i = 0 .. len - n`. -/
theorem movingAvg_refines_C4 (n : ℕ) (x : List ℚ) (h1 : 1 ≤ n) (h2 : n ≤ x.length) :
    movingAvg n x = movingAvgDirect n x :=
  movingAvgGo_spec x n h1 h2

/-- Witness for C4 at `n = 2`, `x = [1, 2, 3, 4]`. -/
theorem movingAvg_refines_C4_witness :
    (1 ≤ 2 ∧ 2 ≤ ([1, 2, 3, 4] : List ℚ).length) ∧
    movingAvg 2 [1, 2, 3, 4] = movingAvgDirect 2 [1, 2, 3, 4] :=
  ⟨⟨by decide, by decide⟩, movingAvg_refines_C4 2 [1, 2, 3, 4] (by decide) (by decide)⟩

/-- Helper: length of the moving average output. -/
theorem movingAvg_length (n : ℕ) (x : List ℚ) (h1 : 1 ≤ n) (h2 : n ≤ x.length) :
    (movingAvg n x).length = x.length - n + 1 := by
  rw [movingAvg, movingAvgGo_spec x n h1 h2, List.length_map, List.length_range]

/-- C6: for `len ≥ n ≥ 1` the noise extractor output has length exactly
`len - n`: the trim `x[n/2:-n/2]` keeps `len - n` points (`⌊n/2⌋` cut at the
front, `⌈n/2⌉` at the back) and zipping with the `len - n + 1` smoothed values
keeps the shorter length. -/
theorem noise_length_C6 (n : ℕ) (x : List ℚ) (h1 : 1 ≤ n) (h2 : n ≤ x.length) :
    (noiseExtractor n x).length = x.length - n := by
  rw [noiseExtractor, List.length_zipWith, movingAvg_length n x h1 h2, pySlice,
    List.length_drop, List.length_take, sliceBound, sliceBound,
    if_pos (by omega : ((-(n : ℤ)) / 2) < 0), if_neg (by omega : ¬ ((n : ℤ) / 2 < 0))]
  simp only [Nat.min_def, min_def]
  split_ifs <;> omega

/-- Witness for C6 at `n = 3`, `x = [1, 2, 3, 4]`. -/
theorem noise_length_C6_witness :
    (1 ≤ 3 ∧ 3 ≤ ([1, 2, 3, 4] : List ℚ).length) ∧
    (noiseExtractor 3 [1, 2, 3, 4]).length = ([1, 2, 3, 4] : List ℚ).length - 3 :=
  ⟨⟨by decide, by decide⟩, noise_length_C6 3 [1, 2, 3, 4] (by decide) (by decide)⟩

/-- Helper: pointwise reading of a `zipWith` subtraction. -/
theorem zip_sub_getD (as bs : List ℚ) (i : ℕ)
    (h : i < (List.zipWith (fun a b => a - b) as bs).length) :
    as.getD i 0 = bs.getD i 0 + (List.zipWith (fun a b => a - b) as bs).getD i 0 := by
  have hab : i < as.length ∧ i < bs.length := by
    rw [List.length_zipWith] at h
    omega
  rw [List.getD_eq_getElem _ _ h, List.getD_eq_getElem _ _ hab.1,
    List.getD_eq_getElem _ _ hab.2, List.getElem_zipWith]
  ring

/-- C5: over the valid aligned region, the trimmed original signal is exactly
the moving average plus the extracted noise. -/
theorem noise_decomposition_C5 (n : ℕ) (x : List ℚ) (i : ℕ) (h1 : 1 ≤ n) (h2 : n ≤ x.length)
    (hi : i < (noiseExtractor n x).length) :
    (pySlice x ((n : ℤ) / 2) ((-(n : ℤ)) / 2)).getD i 0 =
      (movingAvg n x).getD i 0 + (noiseExtractor n x).getD i 0 :=
  zip_sub_getD _ _ i hi

/-- Witness for C5 at `n = 2`, `x = [1, 2, 3, 4]`, `i = 0`. -/
theorem noise_decomposition_C5_witness :
    (1 ≤ 2 ∧ 2 ≤ ([1, 2, 3, 4] : List ℚ).length ∧
      0 < (noiseExtractor 2 [1, 2, 3, 4]).length) ∧
    (pySlice ([1, 2, 3, 4] : List ℚ) ((2 : ℤ) / 2) ((-(2 : ℤ)) / 2)).getD 0 0 =
      (movingAvg 2 [1, 2, 3, 4]).getD 0 0 + (noiseExtractor 2 [1, 2, 3, 4]).getD 0 0 :=
  ⟨⟨by decide, by decide, by decide⟩,
    noise_decomposition_C5 2 [1, 2, 3, 4] 0 (by decide) (by decide) (by decide)⟩

/-- C10: for every positive `window_offset`, the pre-stimulus slice
`x[0:-window_offset]` concatenated with the `offset = 0` post-stimulus slice
`x[-window_offset:]` restores `x` exactly. -/
theorem pre_post_partition_C10 (w : ℕ) (x : List ℚ) (hw : 1 ≤ w) :
    preStimulusExtractor w x ++ postStimulusExtractor 0 w x = x := by
  rw [preStimulusExtractor, postStimulusExtractor, pySlice, pySliceFrom]
  have h0 : sliceBound x.length 0 = 0 := by
    rw [sliceBound]
    simp
  have hsame : (0 : ℤ) - (w : ℤ) = -(w : ℤ) := by ring
  rw [h0, hsame, List.drop_zero, List.take_append_drop]

/-- Witness for C10 at `window_offset = 2`, `x = [1, 2, 3]`. -/
theorem pre_post_partition_C10_witness :
    1 ≤ 2 ∧ preStimulusExtractor 2 ([1, 2, 3] : List ℚ) ++
      postStimulusExtractor 0 2 ([1, 2, 3] : List ℚ) = [1, 2, 3] :=
  ⟨by decide, pre_post_partition_C10 2 [1, 2, 3] (by decide)⟩

/-- Helper: the concrete statistics of the sequence `[0, 0, 3]` over `ℝ`. -/
theorem stats_of_003 :
    mean ([0, 0, 3] : List ℝ) = 1 ∧ moment ([0, 0, 3] : List ℝ) 3 = 2 ∧
      var ([0, 0, 3] : List ℝ) = 2 := by
  have hm : mean ([0, 0, 3] : List ℝ) = 1 := by
    norm_num [mean]
  refine ⟨hm, ?_, ?_⟩
  · norm_num [moment, hm]
  · norm_num [var, moment, hm]

/-- C1: on the sequence `[0, 0, 3]` the source `skewness` returns
`moment/var = 1` (the Python 2 exponent `3/2` evaluates to `1`), while the
value demanded by the claim, `moment(x,3)/var(x)^1.5`, is `2 / sqrt(2)^3 ≠ 1`;
`kurtosis` does match the claimed formula `moment(x,4)/var(x)^2 - 3`. -/
theorem skewness_kurtosis_C1 :
    skewness ([0, 0, 3] : List ℝ) = 1 ∧
    specSkewness ([0, 0, 3] : List ℝ) ≠ 1 ∧
    kurtosis ([0, 0, 3] : List ℝ) =
      moment ([0, 0, 3] : List ℝ) 4 / var ([0, 0, 3] : List ℝ) ^ 2 - 3 := by
  obtain ⟨hm, h3, hv⟩ := stats_of_003
  refine ⟨?_, ?_, rfl⟩
  · rw [skewness, h3, hv]
    norm_num
  · rw [specSkewness, h3, hv]
    intro h
    have h2 : Real.sqrt 2 ^ 3 = 2 := by
      field_simp at h
      linarith
    have h4 : (Real.sqrt 2 ^ 3) ^ 2 = 8 := by
      rw [← pow_mul, mul_comm, pow_mul, Real.sq_sqrt (by norm_num : (0:ℝ) ≤ 2)]
      norm_num
    rw [h2] at h4
    norm_num at h4

/-- C8: for a nonempty constant sequence, `var` evaluates to `0` without
raising, while `skewness` and `kurtosis` raise `ZeroDivisionError` (modelled
as `none`) instead of returning a junk value. -/
theorem constant_stats_C8 (x : List ℚ) (c : ℚ) (hne : x ≠ []) (hc : ∀ y ∈ x, y = c) :
    varE x = some 0 ∧ skewnessE x = none ∧ kurtosisE x = none := by
  have hlen0 : x.length ≠ 0 := by simpa using hne
  have hlen : ((x.length : ℚ)) ≠ 0 := by exact_mod_cast hlen0
  have hmean : meanE x = some c := by
    rw [meanE, pyDiv, if_neg hlen, List.sum_eq_card_nsmul x c hc, nsmul_eq_mul]
    rw [mul_div_cancel_left₀ c hlen]
  have hmom : ∀ n : ℕ, n ≠ 0 → momentE x n = some 0 := by
    intro n hn
    rw [momentE, hmean]
    simp only [Option.some_bind]
    have hsum : (x.map (fun xx => (xx - c) ^ n)).sum = 0 := by
      apply List.sum_eq_zero
      intro z hz
      obtain ⟨y, hy, rfl⟩ := List.mem_map.mp hz
      rw [hc y hy, sub_self, zero_pow hn]
    rw [hsum, pyDiv, if_neg hlen, zero_div]
  have hvar : varE x = some 0 := hmom 2 (by norm_num)
  refine ⟨hvar, ?_, ?_⟩
  · rw [skewnessE, hmom 3 (by norm_num), hvar]
    simp [pyDiv]
  · rw [kurtosisE, hmom 4 (by norm_num), hvar]
    simp [pyDiv]

/-- Witness for C8 at the concrete constant sequence `[5, 5]`. -/
theorem constant_stats_C8_witness :
    (([5, 5] : List ℚ) ≠ [] ∧ ∀ y ∈ ([5, 5] : List ℚ), y = 5) ∧
    (varE [5, 5] = some 0 ∧ skewnessE [5, 5] = none ∧ kurtosisE [5, 5] = none) :=
  ⟨⟨by decide, by decide⟩, constant_stats_C8 [5, 5] 5 (by decide) (by decide)⟩

/-- Helper: a central moment of even order — in particular the variance — is
nonnegative. -/
theorem var_nonneg (x : List ℝ) : 0 ≤ var x := by
  rw [var, moment]
  apply div_nonneg
  · apply List.sum_nonneg
    intro z hz
    obtain ⟨y, _, rfl⟩ := List.mem_map.mp hz
    exact sq_nonneg _
  · exact Nat.cast_nonneg _

/-- C2: the feature-ensemble output is exactly the claimed 10-vector, in
order; the code's Hjorth quotients `sqrt vardiff1 / sqrt vari` agree with the
claimed `sqrt (vardiff1 / vari)` because variances are nonnegative. -/
theorem featureEnsemble_C2 (x : List ℝ) (h3 : 3 ≤ x.length) (hv : var x ≠ 0)
    (hv1 : var (differential x) ≠ 0) :
    featureEnsemble x =
      [mean x,
       mean ((differential x).map abs),
       mean ((differential (differential x)).map abs),
       var x,
       var (differential x),
       var (differential (differential x)),
       Real.sqrt (var (differential x) / var x),
       Real.sqrt (var (differential (differential x)) / var (differential x)) /
         Real.sqrt (var (differential x) / var x),
       skewness x,
       kurtosis x] ∧
    (featureEnsemble x).length = 10 := by
  have hmob : Real.sqrt (var (differential x) / var x)
      = Real.sqrt (var (differential x)) / Real.sqrt (var x) :=
    Real.sqrt_div (var_nonneg _) _
  have hcom : Real.sqrt (var (differential (differential x)) / var (differential x))
      = Real.sqrt (var (differential (differential x))) / Real.sqrt (var (differential x)) :=
    Real.sqrt_div (var_nonneg _) _
  refine ⟨?_, rfl⟩
  rw [hmob, hcom]
  rfl

/-- Witness for C2 at `x = [0, 1, 0]` (variance `2/9`, first-difference
variance `1`). -/
theorem featureEnsemble_C2_witness :
    (3 ≤ ([0, 1, 0] : List ℝ).length ∧ var ([0, 1, 0] : List ℝ) ≠ 0 ∧
      var (differential ([0, 1, 0] : List ℝ)) ≠ 0) ∧
    (featureEnsemble ([0, 1, 0] : List ℝ) =
      [mean ([0, 1, 0] : List ℝ),
       mean ((differential ([0, 1, 0] : List ℝ)).map abs),
       mean ((differential (differential ([0, 1, 0] : List ℝ))).map abs),
       var ([0, 1, 0] : List ℝ),
       var (differential ([0, 1, 0] : List ℝ)),
       var (differential (differential ([0, 1, 0] : List ℝ))),
       Real.sqrt (var (differential ([0, 1, 0] : List ℝ)) / var ([0, 1, 0] : List ℝ)),
       Real.sqrt (var (differential (differential ([0, 1, 0] : List ℝ))) /
           var (differential ([0, 1, 0] : List ℝ))) /
         Real.sqrt (var (differential ([0, 1, 0] : List ℝ)) / var ([0, 1, 0] : List ℝ)),
       skewness ([0, 1, 0] : List ℝ),
       kurtosis ([0, 1, 0] : List ℝ)] ∧
      (featureEnsemble ([0, 1, 0] : List ℝ)).length = 10) :=
  ⟨⟨by simp, by norm_num [var, moment, mean], by norm_num [var, moment, mean, differential]⟩,
    featureEnsemble_C2 [0, 1, 0] (by simp) (by norm_num [var, moment, mean])
      (by norm_num [var, moment, mean, differential])⟩

/-! ### Window-transform lemmas -/

/-- Helper: when the window arithmetic is exact (`len = s*(N+1)`, positive
`s`), the loop indices are `0, s, …, (N-1)*s`. -/
theorem windowIndices_eq (L N s : ℕ) (hN : 1 ≤ N) (hs : 1 ≤ s) (hL : L = s * (N + 1)) :
    windowIndices L N = (List.range N).map (fun k : ℕ => (k : ℤ) * s) := by
  have hw : 2 * L / (N + 1) = 2 * s := by
    rw [hL, show 2 * (s * (N + 1)) = 2 * s * (N + 1) by ring]
    exact Nat.mul_div_cancel _ (by omega)
  have hstep : 2 * L / (N + 1) / 2 = s := by rw [hw]; omega
  rw [windowIndices, hstep, hw, pyRangeZ]
  have harith : ((L : ℤ) - (2 * s : ℕ) + 1 + (s : ℕ) - 1) = (s : ℤ) * N := by
    rw [hL]
    push_cast
    ring
  have hcount : ((L : ℤ) - (2 * s : ℕ) + 1 + (s : ℕ) - 1) / (s : ℕ) = (N : ℤ) := by
    rw [harith, Int.mul_ediv_cancel_left _ (by exact_mod_cast (by omega : s ≠ 0))]
  rw [hcount, Int.toNat_ofNat]

/-- Helper: with the taper disabled the loop leaves the buffer alone and the
windows are exactly the slices at the loop indices. -/
theorem windowSlices_false (w : ℕ) (is : List ℤ) (x : List ℝ) :
    windowSlices false w is x = is.map (fun i => pySlice x i (i + w)) := by
  induction is generalizing x with
  | nil => rfl
  | cons i rest ih => simp [windowSlices, ih]

/-- Helper: a Python slice `x[a:a+w]` at natural positions inside the list is
`(x.drop a).take w`. -/
theorem pySlice_nat (x : List ℝ) (a w : ℕ) (h : a + w ≤ x.length) :
    pySlice x (a : ℤ) ((a : ℤ) + (w : ℤ)) = (x.drop a).take w := by
  rw [pySlice]
  have hb : sliceBound x.length ((a : ℤ) + (w : ℤ)) = a + w := by
    rw [sliceBound, if_neg (by omega)]
    simp only [Nat.min_def]
    split_ifs <;> omega
  have ha : sliceBound x.length ((a : ℤ)) = a := by
    rw [sliceBound, if_neg (by omega)]
    simp only [Nat.min_def]
    split_ifs <;> omega
  rw [ha, hb, List.drop_take]
  congr 1
  omega

/-- Helper: such a slice has exactly `w` elements. -/
theorem pySlice_nat_length (x : List ℝ) (a w : ℕ) (h : a + w ≤ x.length) :
    (pySlice x (a : ℤ) ((a : ℤ) + (w : ℤ))).length = w := by
  rw [pySlice_nat x a w h, List.length_take, List.length_drop]
  simp only [Nat.min_def]
  split_ifs <;> omega

/-- Helper: `np.hanning(M)` has `M` points. -/
theorem hanningList_length (M : ℕ) : (hanningList M).length = M := by
  rw [hanningList]
  split_ifs with h
  · rw [h]
    rfl
  · rw [List.length_map, List.length_range]

/-- Helper: the in-place taper keeps the window length. -/
theorem hannTaper_length (win : List ℝ) : (hannTaper win).length = win.length := by
  rw [hannTaper, List.length_zipWith, hanningList_length, min_self]

/-- Helper: writing a `w`-element segment back over `x[i:i+w]` keeps the
buffer length. -/
theorem writeSeg_length {β : Type*} (x : List β) (i w : ℕ) (seg : List β)
    (hseg : seg.length = w) (hiw : i + w ≤ x.length) :
    (writeSeg x i w seg).length = x.length := by
  rw [writeSeg]
  simp only [List.length_append, List.length_take, List.length_drop, hseg, Nat.min_def]
  split_ifs <;> omega

/-- Helper: the loop emits one window per index, tapered or not. -/
theorem windowSlices_count (h : Bool) (w : ℕ) (is : List ℤ) (x : List ℝ) :
    (windowSlices h w is x).length = is.length := by
  induction is generalizing x with
  | nil => cases h <;> rfl
  | cons i rest ih => cases h <;> simp [windowSlices, ih]

/-- Helper: every emitted window has `w` points, as long as every index fits
(`0 ≤ i` and `i + w ≤ len`); in-place taper writes do not change the buffer
length, so the property survives them. -/
theorem windowSlices_mem_length (h : Bool) (w : ℕ) (is : List ℤ) (x : List ℝ)
    (hidx : ∀ i ∈ is, 0 ≤ i ∧ i.toNat + w ≤ x.length) :
    ∀ win ∈ windowSlices h w is x, win.length = w := by
  induction is generalizing x with
  | nil => intro win hwin; cases h <;> simp [windowSlices] at hwin
  | cons i rest ih =>
    intro win hwin
    obtain ⟨hi0, hiw⟩ := hidx i (List.mem_cons_self i rest)
    have hcast : (i : ℤ) = ((i.toNat : ℕ) : ℤ) := (Int.toNat_of_nonneg hi0).symm
    have hslice : (pySlice x i (i + w)).length = w := by
      rw [hcast]
      exact pySlice_nat_length x i.toNat w hiw
    cases h with
    | false =>
      rw [windowSlices] at hwin
      simp only [Bool.false_eq_true, if_false] at hwin
      rcases List.mem_cons.mp hwin with rfl | hwin
      · exact hslice
      · exact ih x (fun j hj => hidx j (List.mem_cons_of_mem _ hj)) win hwin
    | true =>
      rw [windowSlices] at hwin
      simp only [if_true] at hwin
      rcases List.mem_cons.mp hwin with rfl | hwin
      · rw [hannTaper_length]
        exact hslice
      · have hlen : (writeSeg x i.toNat w (hannTaper (pySlice x i (i + w)))).length
            = x.length := by
          apply writeSeg_length
          · rw [hannTaper_length]
            exact hslice
          · exact hiw
        refine ih (writeSeg x i.toNat w (hannTaper (pySlice x i (i + w)))) ?_ win hwin
        intro j hj
        rw [hlen]
        exact hidx j (List.mem_cons_of_mem _ hj)

/-- C3: when `window_size = 2*len/(N+1)` and `step = window_size/2` are exact
(and the sample is nonempty, so that `step ≥ 1` and Python's `range` is
well-defined), the window loop emits exactly `N` windows; with the taper off,
window `k` is the `window_size`-point slice starting at `k*step`; every
window (tapered or not) has `window_size` points; for `N = 1` the single
window is the whole, optionally Hann-tapered, sample; and the extractor is
`f` mapped over the windows, concatenated. -/
theorem windowTransform_C3 (f : List ℝ → List ℝ) (x : List ℝ) (N : ℕ) (hanning : Bool)
    (hN : 1 ≤ N) (hx : x ≠ [])
    (hdvd : (N + 1) ∣ 2 * x.length) (heven : 2 ∣ 2 * x.length / (N + 1)) :
    (windowSlices hanning (2 * x.length / (N + 1)) (windowIndices x.length N) x).length = N ∧
    windowSlices false (2 * x.length / (N + 1)) (windowIndices x.length N) x =
      (List.range N).map (fun k =>
        (x.drop (k * (2 * x.length / (N + 1) / 2))).take (2 * x.length / (N + 1))) ∧
    (∀ win ∈ windowSlices hanning (2 * x.length / (N + 1)) (windowIndices x.length N) x,
      win.length = 2 * x.length / (N + 1)) ∧
    (N = 1 → windowSlices hanning (2 * x.length / (N + 1)) (windowIndices x.length N) x
      = [applyHann hanning x]) ∧
    windowTransformExtractor f N hanning x =
      ((windowSlices hanning (2 * x.length / (N + 1)) (windowIndices x.length N) x).map f).join
    := by
  have hLpos : 1 ≤ x.length := List.length_pos.mpr hx
  have hww : 2 * x.length / (N + 1) * (N + 1) = 2 * x.length := Nat.div_mul_cancel hdvd
  have hws : 2 * (2 * x.length / (N + 1) / 2) = 2 * x.length / (N + 1) :=
    Nat.mul_div_cancel' heven
  set L := x.length with hLdef
  set w := 2 * L / (N + 1) with hwdef
  set s := w / 2 with hsdef
  have hL : L = s * (N + 1) := by
    have h2 : 2 * (s * (N + 1)) = 2 * L := by
      calc 2 * (s * (N + 1)) = 2 * s * (N + 1) := by ring
        _ = w * (N + 1) := by rw [hws]
        _ = 2 * L := hww
    exact (Nat.eq_of_mul_eq_mul_left (by norm_num) h2).symm
  have hs1 : 1 ≤ s := by
    rcases Nat.eq_zero_or_pos s with h0 | h
    · rw [h0, Nat.zero_mul] at hL
      omega
    · exact h
  have hwfromS : w = 2 * s := by omega
  have hidx := windowIndices_eq L N s hN hs1 hL
  have hbound : ∀ k, k < N → k * s + w ≤ L := by
    intro k hk
    have h1 : k * s ≤ (N - 1) * s := Nat.mul_le_mul_right s (by omega)
    have h2 : (N - 1) * s + 2 * s = (N + 1) * s := by
      rw [← Nat.add_mul]
      congr 1
      omega
    calc k * s + w = k * s + 2 * s := by rw [hwfromS]
      _ ≤ (N - 1) * s + 2 * s := by omega
      _ = (N + 1) * s := h2
      _ = s * (N + 1) := Nat.mul_comm _ _
      _ = L := hL.symm
  have hidxmem : ∀ i ∈ windowIndices L N, 0 ≤ i ∧ i.toNat + w ≤ L := by
    intro i hi
    rw [hidx] at hi
    obtain ⟨k, hk, rfl⟩ := List.mem_map.mp hi
    have hkN := List.mem_range.mp hk
    refine ⟨by positivity, ?_⟩
    have hcast : ((k : ℤ) * (s : ℤ)).toNat = k * s := by
      rw [show ((k : ℤ) * (s : ℤ)) = ((k * s : ℕ) : ℤ) by push_cast; ring, Int.toNat_ofNat]
    rw [hcast]
    exact hbound k hkN
  refine ⟨?_, ?_, ?_, ?_, rfl⟩
  · rw [hidx, windowSlices_count, List.length_map, List.length_range]
  · rw [hidx, windowSlices_false, List.map_map]
    apply List.map_congr_left
    intro k hk
    have hkN := List.mem_range.mp hk
    show pySlice x ((k : ℤ) * s) ((k : ℤ) * s + w) = (x.drop (k * s)).take w
    rw [show ((k : ℤ) * (s : ℤ)) = ((k * s : ℕ) : ℤ) by push_cast; ring]
    exact pySlice_nat x (k * s) w (hbound k hkN)
  · exact windowSlices_mem_length hanning w (windowIndices L N) x hidxmem
  · intro hN1
    subst hN1
    have hwL : w = L := by omega
    have hone : windowIndices L 1 = [(0 : ℤ)] := by
      rw [hidx]
      norm_num [List.range_succ]
    have hslice : pySlice x 0 (w : ℤ) = x := by
      have h := pySlice_nat x 0 w (by omega)
      simpa [hwL, hLdef] using h
    rw [hone]
    cases hanning with
    | false => simp [windowSlices, applyHann, hslice]
    | true => simp [windowSlices, applyHann, hslice]

/-- Witness for C3: `N = 3`, an 8-point sample (window size 4, step 2),
taper off, `f = id`. -/
theorem windowTransform_C3_witness :
    (1 ≤ 3 ∧ ([1, 2, 3, 4, 5, 6, 7, 8] : List ℝ) ≠ [] ∧
      (3 + 1) ∣ 2 * ([1, 2, 3, 4, 5, 6, 7, 8] : List ℝ).length ∧
      2 ∣ 2 * ([1, 2, 3, 4, 5, 6, 7, 8] : List ℝ).length / (3 + 1)) ∧
    ((windowSlices false (2 * ([1, 2, 3, 4, 5, 6, 7, 8] : List ℝ).length / (3 + 1))
        (windowIndices ([1, 2, 3, 4, 5, 6, 7, 8] : List ℝ).length 3)
        [1, 2, 3, 4, 5, 6, 7, 8]).length = 3 ∧
      windowSlices false (2 * ([1, 2, 3, 4, 5, 6, 7, 8] : List ℝ).length / (3 + 1))
          (windowIndices ([1, 2, 3, 4, 5, 6, 7, 8] : List ℝ).length 3)
          [1, 2, 3, 4, 5, 6, 7, 8] =
        (List.range 3).map (fun k =>
          (([1, 2, 3, 4, 5, 6, 7, 8] : List ℝ).drop
              (k * (2 * ([1, 2, 3, 4, 5, 6, 7, 8] : List ℝ).length / (3 + 1) / 2))).take
            (2 * ([1, 2, 3, 4, 5, 6, 7, 8] : List ℝ).length / (3 + 1))) ∧
      (∀ win ∈ windowSlices false (2 * ([1, 2, 3, 4, 5, 6, 7, 8] : List ℝ).length / (3 + 1))
          (windowIndices ([1, 2, 3, 4, 5, 6, 7, 8] : List ℝ).length 3)
          [1, 2, 3, 4, 5, 6, 7, 8],
        win.length = 2 * ([1, 2, 3, 4, 5, 6, 7, 8] : List ℝ).length / (3 + 1)) ∧
      (3 = 1 → windowSlices false (2 * ([1, 2, 3, 4, 5, 6, 7, 8] : List ℝ).length / (3 + 1))
          (windowIndices ([1, 2, 3, 4, 5, 6, 7, 8] : List ℝ).length 3)
          [1, 2, 3, 4, 5, 6, 7, 8] = [applyHann false [1, 2, 3, 4, 5, 6, 7, 8]]) ∧
      windowTransformExtractor id 3 false [1, 2, 3, 4, 5, 6, 7, 8] =
        ((windowSlices false (2 * ([1, 2, 3, 4, 5, 6, 7, 8] : List ℝ).length / (3 + 1))
            (windowIndices ([1, 2, 3, 4, 5, 6, 7, 8] : List ℝ).length 3)
            [1, 2, 3, 4, 5, 6, 7, 8]).map id).join) :=
  ⟨⟨by norm_num, by simp, by norm_num, by norm_num⟩,
    windowTransform_C3 id [1, 2, 3, 4, 5, 6, 7, 8] 3 false (by norm_num) (by simp)
      (by norm_num) (by norm_num)⟩

end Pleased
